import Mathlib

/-!
Formal model of the EMX-040256 thermal-printer driver's protocol layer.

The definitions below are shallow embeddings of the Python sources:
* `src/print_emx_040256.py` (CRC8 table, packet framer, command builders,
  line encoders, job builder, chunked sender with flow control);
* `src/timiniprint/protocol/{commands,encoding,types,job}.py` (the same
  protocol engine parameterized by the per-model `new_format` framing flag);
* `src/timiniprint/models.py` (printer-model catalogue resolution).

Python `bytes` values are modelled as `List Nat` (each entry a byte value),
Python `str` as `List Char`, Python `int` as `Int` where negativity matters
(energy, blackening level) and `Nat` elsewhere.  Code that can raise a
Python exception is modelled in `Except String`.
-/

namespace EMX

/-! ### CRC8 checksum — `build_crc8_table` / `crc8` in src/print_emx_040256.py -/

/-- One round of the table builder's inner loop:
`crc = ((crc << 1) ^ 0x07) & 0xFF` when `crc & 0x80` is set, else
`crc = (crc << 1) & 0xFF`. -/
def crc8_round (crc : Nat) : Nat :=
  if crc &&& 0x80 ≠ 0 then ((crc <<< 1) ^^^ 0x07) &&& 0xFF
  else (crc <<< 1) &&& 0xFF

/-- Python `for _ in range(n): crc = round(crc)` — `n` applications of `crc8_round`. -/
def crc8_rounds : Nat → Nat → Nat
  | 0, crc => crc
  | n + 1, crc => crc8_rounds n (crc8_round crc)

/-- Source `build_crc8_table()`: for each byte value `0..255`, eight rounds of the
shift/xor step. -/
def build_crc8_table : List Nat :=
  (List.range 256).map (fun value => crc8_rounds 8 value)

/-- Module-level `CHECKSUM_TABLE = build_crc8_table()`. -/
def CHECKSUM_TABLE : List Nat := build_crc8_table

/-- Source `crc8(data)` with the default initial value 0:
fold `crc = CHECKSUM_TABLE[(crc ^ value) & 0xFF]` over the payload, then
mask with `0xFF` as the source does on return. -/
def crc8 (data : List Nat) : Nat :=
  (data.foldl (fun crc value => CHECKSUM_TABLE.getD ((crc ^^^ value) &&& 0xFF) 0) 0) &&& 0xFF

/-! ### Packet framer — `make_packet` (both sources; the standalone script is
the `new_format = false` instance of the `timiniprint` version). -/

/-- Source `make_packet(cmd, payload, new_format)`: sync bytes `0x51 0x78`, masked
command id, reserved zero byte, little-endian 16-bit payload length, payload,
CRC8 of the payload, trailing `0xFF`; a single `0x12` marker byte is prepended
when `new_format` is set. -/
def make_packet (cmd : Nat) (payload : List Nat) (new_format : Bool) : List Nat :=
  let length := payload.length
  let header : List Nat :=
    [0x51, 0x78, cmd &&& 0xFF, 0x00, length &&& 0xFF, (length >>> 8) &&& 0xFF]
  let checksum := crc8 payload
  let packet := header ++ payload ++ [checksum, 0xFF]
  if new_format then 0x12 :: packet else packet

/-! ### Command builders — src/timiniprint/protocol/commands.py -/

/-- Source `blackening_cmd(level)`: clamp the level into `1..5`, payload `0x30+level`. -/
def blackening_cmd (level : Int) (new_format : Bool) : List Nat :=
  let level := max 1 (min 5 level)
  make_packet 0xA4 [(0x30 + level).toNat] new_format

/-- Source `energy_cmd(energy)`: empty bytes when `energy <= 0`; otherwise payload is
`energy.to_bytes(2, "little", signed=False)`, i.e. `[energy % 256, energy / 256]`,
which raises `OverflowError` in Python when `energy >= 2^16`. -/
def energy_cmd (energy : Int) (new_format : Bool) : Except String (List Nat) :=
  if energy ≤ 0 then .ok []
  else if energy < 65536 then
    .ok (make_packet 0xAF [energy.toNat % 256, energy.toNat / 256] new_format)
  else .error "int too big to convert"

/-- Source `print_mode_cmd(is_text)`: payload `1` for text, `0` for image. -/
def print_mode_cmd (is_text : Bool) (new_format : Bool) : List Nat :=
  make_packet 0xBE [if is_text then 1 else 0] new_format

/-- Source `feed_paper_cmd(speed)`: payload is the masked speed byte. -/
def feed_paper_cmd (speed : Nat) (new_format : Bool) : List Nat :=
  make_packet 0xBD [speed &&& 0xFF] new_format

/-- Source `paper_cmd(dpi)`: payload `0x48 0x00` at 300 dpi, else `0x30 0x00`. -/
def paper_cmd (dpi : Nat) (new_format : Bool) : List Nat :=
  make_packet 0xA1 (if dpi = 300 then [0x48, 0x00] else [0x30, 0x00]) new_format

/-- Source `dev_state_cmd()`: payload `0x00`. -/
def dev_state_cmd (new_format : Bool) : List Nat :=
  make_packet 0xA3 [0x00] new_format

/-! ### Raster line encoders — src/timiniprint/protocol/encoding.py -/

/-- Source `encode_run(color, count)`: the `while count > 127` loop emitting
`(color << 7) | 127` bytes, then one `(color << 7) | count` byte if a positive
remainder is left. -/
def encode_run (color : Nat) (count : Nat) : List Nat :=
  if 127 < count then ((color <<< 7) ||| 127) :: encode_run color (count - 127)
  else if 0 < count then [(color <<< 7) ||| count] else []
termination_by count
decreasing_by omega

/-- The `for pix in line[1:]` loop of `rle_encode_line`, carried state
`(runs, prev, count, has_black)`. -/
def rle_loop : List Nat → List Nat → Nat → Nat → Nat → List Nat × Nat × Nat × Nat
  | [], runs, prev, count, has_black => (runs, prev, count, has_black)
  | pix :: rest, runs, prev, count, has_black =>
    let hb := if pix ≠ 0 then 1 else has_black
    if pix = prev then rle_loop rest runs prev (count + 1) hb
    else rle_loop rest (runs ++ encode_run prev count) pix 1 hb

/-- Source `rle_encode_line(line)`: run the loop over the tail, then flush the final
run when a black pixel was seen, and ensure at least one run is emitted. -/
def rle_encode_line (line : List Nat) : List Nat :=
  match line with
  | [] => []
  | p :: rest =>
    let s := rle_loop rest [] p 1 (if p ≠ 0 then 1 else 0)
    let runs := s.1
    let prev := s.2.1
    let count := s.2.2.1
    let has_black := s.2.2.2
    let runs2 := if has_black ≠ 0 then runs ++ encode_run prev count else runs
    if runs2.isEmpty then runs2 ++ encode_run prev count else runs2

/-- One byte of `pack_line`: the 8-pixel chunk (zero-padded) packed with the
selectable bit order. -/
def pack_byte (chunk : List Nat) (lsb_first : Bool) : Nat :=
  (List.range 8).foldl
    (fun value bit =>
      if chunk.getD bit 0 ≠ 0 then
        value ||| (1 <<< (if lsb_first then bit else 7 - bit))
      else value)
    0

/-- Source `pack_line(line, lsb_first)`: the `for i in range(0, len(line), 8)` loop,
one packed byte per 8-pixel chunk. -/
def pack_line : List Nat → Bool → List Nat
  | [], _ => []
  | p :: rest, lsb_first =>
    pack_byte ((p :: rest).take 8) lsb_first :: pack_line (rest.drop 7) lsb_first
termination_by line _ => line.length
decreasing_by simp [List.length_drop]; omega

/-- Source `build_line_packets(...)`: raises for widths not divisible by 8 (and the
`height = len(pixels) // width` line raises `ZeroDivisionError` for width 0);
otherwise walks rows, choosing per row between the RLE packet (cmd `0xBF`,
taken when the RLE byte length is at most `width // 8`) and the raw bit-packed
packet (cmd `0xA2`), inserting `feed_paper_cmd(speed)` after every
`line_feed_every` rows. -/
def build_line_packets (pixels : List Nat) (width : Nat) (speed : Nat)
    (compress : Bool) (lsb_first : Bool) (new_format : Bool)
    (line_feed_every : Nat) : Except String (List Nat) :=
  if width % 8 ≠ 0 then .error "Width must be divisible by 8"
  else if width = 0 then .error "integer division or modulo by zero"
  else
    let height := pixels.length / width
    let width_bytes := width / 8
    .ok ((List.range height).foldl
      (fun out row =>
        let line := (pixels.drop (row * width)).take width
        let packet :=
          if compress then
            let rle := rle_encode_line line
            if rle.length ≤ width_bytes then make_packet 0xBF rle new_format
            else make_packet 0xA2 (pack_line line lsb_first) new_format
          else make_packet 0xA2 (pack_line line lsb_first) new_format
        let out2 := out ++ packet
        if line_feed_every ≠ 0 ∧ (row + 1) % line_feed_every = 0 then
          out2 ++ feed_paper_cmd speed new_format
        else out2)
      [])

/-! ### Raster and job builder — src/timiniprint/protocol/{types,job}.py -/

/-- Source `Raster`: row-major 0/1 pixel buffer with a width. -/
structure Raster where
  pixels : List Nat
  width : Nat
deriving DecidableEq

/-- Source `Raster.validate()`: width must be positive and the pixel count a multiple
of the width. -/
def Raster.validate (r : Raster) : Except String Unit :=
  if r.width = 0 then .error "Width must be greater than zero"
  else if r.pixels.length % r.width ≠ 0 then
    .error "Pixels length must be a multiple of width"
  else .ok ()

/-- Source `build_print_payload(...)`: energy command (possibly empty), print mode,
feed, then all line packets with the fixed 200-row feed cadence. -/
def build_print_payload (pixels : List Nat) (width : Nat) (is_text : Bool)
    (speed : Nat) (energy : Int) (compress : Bool) (lsb_first : Bool)
    (new_format : Bool) : Except String (List Nat) := do
  let e ← energy_cmd energy new_format
  let lines ← build_line_packets pixels width speed compress lsb_first new_format 200
  .ok (e ++ print_mode_cmd is_text new_format ++ feed_paper_cmd speed new_format ++ lines)

/-- Source `build_print_payload_from_raster(...)`: validate the raster first. -/
def build_print_payload_from_raster (r : Raster) (is_text : Bool) (speed : Nat)
    (energy : Int) (compress : Bool) (lsb_first : Bool) (new_format : Bool) :
    Except String (List Nat) := do
  r.validate
  build_print_payload r.pixels r.width is_text speed energy compress lsb_first new_format

/-- Source `build_job(...)`: blackening, the print payload, then the fixed trailer
`feed(padding), paper, paper, feed(padding), device-state`. -/
def build_job (pixels : List Nat) (width : Nat) (is_text : Bool) (speed : Nat)
    (energy : Int) (blackening : Int) (compress : Bool) (lsb_first : Bool)
    (new_format : Bool) (feed_padding : Nat) (dev_dpi : Nat) :
    Except String (List Nat) := do
  let payload ← build_print_payload pixels width is_text speed energy compress
    lsb_first new_format
  .ok (blackening_cmd blackening new_format ++ payload
    ++ feed_paper_cmd feed_padding new_format
    ++ paper_cmd dev_dpi new_format ++ paper_cmd dev_dpi new_format
    ++ feed_paper_cmd feed_padding new_format ++ dev_state_cmd new_format)

/-! ### Printer model catalogue — src/timiniprint/models.py
Python `str` values are modelled as `List Char`; `str.lower()` is
`List.map Char.toLower` and `str.startswith` is `List.isPrefixOf`. -/

/-- The two `PrinterModel` fields consumed by `detect_from_device_name`
(the full dataclass carries many more firmware constants). -/
structure PrinterModel where
  model_no : List Char
  head_name : List Char
deriving DecidableEq

/-- Python `name.lower()`. -/
def strLower (s : List Char) : List Char := s.map Char.toLower

/-- The first loop of `detect_from_device_name`: scan all models, keeping the
entry with the longest non-empty `head_name` that is a case-insensitive
head of the advertised name (`match is None or len(...) > len(...)`). -/
def pick_head (name_lower : List Char) :
    List PrinterModel → Option PrinterModel → Option PrinterModel
  | [], acc => acc
  | m :: rest, acc =>
    if m.head_name ≠ [] ∧ List.isPrefixOf (strLower m.head_name) name_lower then
      match acc with
      | none => pick_head name_lower rest (some m)
      | some cur =>
        if m.head_name.length > cur.head_name.length then
          pick_head name_lower rest (some m)
        else pick_head name_lower rest (some cur)
    else pick_head name_lower rest acc

/-- The second loop of `detect_from_device_name`: same scan over `model_no`
(with no non-emptiness guard), reached only when no head name matched. -/
def pick_model_no (name_lower : List Char) :
    List PrinterModel → Option PrinterModel → Option PrinterModel
  | [], acc => acc
  | m :: rest, acc =>
    if List.isPrefixOf (strLower m.model_no) name_lower then
      match acc with
      | none => pick_model_no name_lower rest (some m)
      | some cur =>
        if m.model_no.length > cur.model_no.length then
          pick_model_no name_lower rest (some m)
        else pick_model_no name_lower rest (some cur)
    else pick_model_no name_lower rest acc

/-- Source `PrinterModelRegistry.detect_from_device_name(name)`: empty names resolve
to nothing; otherwise prefer the head-name scan and fall back to the
model-number scan. -/
def detect_from_device_name (models : List PrinterModel) (name : List Char) :
    Option PrinterModel :=
  if name = [] then none
  else
    let name_lower := strLower name
    match pick_head name_lower models none with
    | some m => some m
    | none => pick_model_no name_lower models none

/-! ### Chunked sender with flow control — `send_data` in
src/print_emx_040256.py.  The Python loop body is modelled as one `send_step`
per iteration; the serial reads are modelled as one inbound byte list per
step, and the written chunks are collected instead of sent. -/

/-- Constant `FLOW_ON`: the 9-byte "buffer full" sentinel `51 78 AE 01 01 00 10 70 FF`. -/
def FLOW_ON : List Nat := [0x51, 0x78, 0xAE, 0x01, 0x01, 0x00, 0x10, 0x70, 0xFF]

/-- Constant `FLOW_OFF`: the 9-byte "buffer drained" sentinel `51 78 AE 01 01 00 00 00 FF`. -/
def FLOW_OFF : List Nat := [0x51, 0x78, 0xAE, 0x01, 0x01, 0x00, 0x00, 0x00, 0xFF]

/-- Python's `pattern in data` on bytes: contiguous-subsequence containment. -/
def bytes_in (pat : List Nat) : List Nat → Bool
  | [] => List.isPrefixOf pat []
  | x :: rest => List.isPrefixOf pat (x :: rest) || bytes_in pat rest

/-- Mutable loop state of `send_data`: the flow-control flag and the write
offset into the job bytes. -/
structure SendState where
  is_full : Bool
  offset : Nat
deriving DecidableEq

/-- One iteration of the `while offset < len(data)` loop: update `is_full`
from the freshly read inbound bytes (`FLOW_ON` wins over `FLOW_OFF` via the
`elif`), then either skip the write (paused) or write the next chunk
`data[offset:offset + chunk_size]` and advance. Returns the new state and
the bytes written this iteration. -/
def send_step (flow_control : Bool) (data : List Nat) (chunk_size : Nat)
    (st : SendState) (pending : List Nat) : SendState × List Nat :=
  let full :=
    if flow_control then
      if bytes_in FLOW_ON pending then true
      else if bytes_in FLOW_OFF pending then false
      else st.is_full
    else st.is_full
  if full then ({ st with is_full := full }, [])
  else
    let chunk := (data.drop st.offset).take chunk_size
    ({ is_full := full, offset := st.offset + chunk.length }, chunk)

/-- Iterated `send_step` over a finite trace of inbound reads, concatenating
everything written outbound. -/
def send_run (flow_control : Bool) (data : List Nat) (chunk_size : Nat) :
    SendState → List (List Nat) → SendState × List Nat
  | st, [] => (st, [])
  | st, pending :: rest =>
    let r := send_step flow_control data chunk_size st pending
    let r2 := send_run flow_control data chunk_size r.1 rest
    (r2.1, r.2 ++ r2.2)

/-! ### Spec-side definitions, for refinement-style claims only. -/

/-- Modelled from the spec: one round of the CRC8 table construction as the
spec words it — "shift left; if the vacated high bit was 1, XOR with 0x07",
masked to 8 bits — written in plain arithmetic rather than the source's
bitwise operators. -/
def crc8_round_spec (crc : Nat) : Nat :=
  if crc / 128 % 2 = 1 then ((crc * 2) ^^^ 0x07) % 256
  else (crc * 2) % 256

/-- Modelled from the spec: the packet reader of the round-trip property.
After the leading dialect marker has been stripped, expect the two sync
bytes, the command id, the reserved zero byte and the little-endian 16-bit
length; then recover the payload, the checksum byte that follows it, and
require the trailing `0xFF` sentinel. -/
def parse_packet (bs : List Nat) : Option (Nat × Nat × List Nat × Nat) :=
  match bs with
  | 0x51 :: 0x78 :: cmd :: 0x00 :: lo :: hi :: rest =>
    let len := lo + 256 * hi
    let tail := rest.drop len
    if rest.length = len + 2 ∧ tail.getD 1 0 = 0xFF then
      some (cmd, len, rest.take len, tail.getD 0 0)
    else none
  | _ => none

/-- Modelled from the spec: expansion of an RLE run list — each run byte
becomes (low 7 bits) copies of the pixel colour held in its top bit. -/
def rle_expand (runs : List Nat) : List Nat :=
  (runs.map (fun b => List.replicate (b % 128) (b / 128))).flatten

/-! ## Shared helper lemmas -/

theorem and_255_eq_mod (n : Nat) : n &&& 255 = n % 256 := by
  have h := Nat.and_pow_two_sub_one_eq_mod n 8
  norm_num at h
  exact h

theorem shiftRight_8_eq_div (n : Nat) : n >>> 8 = n / 256 := by
  rw [Nat.shiftRight_eq_div_pow]

theorem foldl_append_flatten (f : Nat → List Nat) (l : List Nat) (init : List Nat) :
    l.foldl (fun acc x => acc ++ f x) init = init ++ (l.map f).flatten := by
  induction l generalizing init with
  | nil => simp
  | cons x xs ih => simp [List.foldl_cons, ih, List.append_assoc]

theorem crc8_round_le (c : Nat) : crc8_round c ≤ 255 := by
  unfold crc8_round
  split <;> exact Nat.and_le_right

theorem crc8_rounds_le (n c : Nat) (h : 0 < n) : crc8_rounds n c ≤ 255 := by
  induction n generalizing c with
  | zero => omega
  | succ m ih =>
    rcases Nat.eq_zero_or_pos m with hm | hm
    · subst hm
      simpa [crc8_rounds] using crc8_round_le c
    · simpa [crc8_rounds] using ih (crc8_round c) hm

theorem crc8_round_eq_spec (c : Nat) : crc8_round c = crc8_round_spec c := by
  unfold crc8_round crc8_round_spec
  have hbit : c &&& 0x80 = (c.testBit 7).toNat * 128 := by
    simpa using Nat.and_two_pow c 7
  have htest : c.testBit 7 = decide (c / 128 % 2 = 1) := by
    simpa using Nat.testBit_to_div_mod (x := c) (i := 7)
  have hshift : c <<< 1 = c * 2 := by
    simpa using Nat.shiftLeft_eq c 1
  have key : c &&& 0x80 ≠ 0 ↔ c / 128 % 2 = 1 := by
    rw [hbit, htest]
    by_cases h : c / 128 % 2 = 1 <;> simp [h]
  by_cases h : c / 128 % 2 = 1
  · rw [if_pos (key.mpr h), if_pos h, hshift, and_255_eq_mod]
  · rw [if_neg (fun hc => h (key.mp hc)), if_neg h, hshift, and_255_eq_mod]

theorem crc8_rounds_eq_spec (n c : Nat) : crc8_rounds n c = crc8_round_spec^[n] c := by
  induction n generalizing c with
  | zero => simp [crc8_rounds]
  | succ m ih =>
    rw [Function.iterate_succ_apply]
    simpa [crc8_rounds, crc8_round_eq_spec] using ih (crc8_round c)

theorem CHECKSUM_TABLE_getD (v : Nat) (h : v < 256) :
    CHECKSUM_TABLE.getD v 0 = crc8_rounds 8 v := by
  simp [CHECKSUM_TABLE, build_crc8_table, List.getD, List.getElem?_map,
    List.getElem?_range, h]

theorem CHECKSUM_TABLE_getD_le (v : Nat) : CHECKSUM_TABLE.getD v 0 ≤ 255 := by
  by_cases h : v < 256
  · rw [CHECKSUM_TABLE_getD v h]
    exact crc8_rounds_le 8 v (by norm_num)
  · have hlen : CHECKSUM_TABLE.length = 256 := by
      simp [CHECKSUM_TABLE, build_crc8_table]
    rw [List.getD_eq_default]
    · omega
    · omega

theorem except_bind_ok {ε α β : Type} (a : α) (f : α → Except ε β) :
    ((Except.ok a : Except ε α) >>= f) = f a := rfl

theorem except_bind_error {ε α β : Type} (e : ε) (f : α → Except ε β) :
    ((Except.error e : Except ε α) >>= f) = Except.error e := rfl

/-! ## Claim theorems -/

/-- C9: the 256-entry CRC table is built by, for each candidate byte value,
applying 8 rounds of "shift left; XOR with 0x07 when the vacated high bit was
1; mask to 8 bits"; `crc8` folds the payload through
`crc = table[(crc ^ byte) & 0xFF]` starting from 0; and `crc8` of the empty
payload is 0. -/
theorem crc8_self_consistent :
    CHECKSUM_TABLE.length = 256
    ∧ (∀ v : Nat, v < 256 → CHECKSUM_TABLE.getD v 0 = crc8_round_spec^[8] v)
    ∧ (∀ (data : List Nat) (b : Nat),
        crc8 (data ++ [b]) = CHECKSUM_TABLE.getD ((crc8 data ^^^ b) &&& 0xFF) 0)
    ∧ crc8 [] = 0 := by
  refine ⟨by simp [CHECKSUM_TABLE, build_crc8_table], ?_, ?_, by decide⟩
  · intro v hv
    rw [CHECKSUM_TABLE_getD v hv, crc8_rounds_eq_spec]
  · intro data b
    unfold crc8
    rw [List.foldl_append, List.foldl_cons, List.foldl_nil]
    set x := data.foldl
      (fun crc value => CHECKSUM_TABLE.getD ((crc ^^^ value) &&& 0xFF) 0) 0 with hx
    have hxor : ((x &&& 255) ^^^ b) &&& 255 = (x ^^^ b) &&& 255 := by
      rw [Nat.and_xor_distrib_right, Nat.and_xor_distrib_right,
        Nat.and_assoc]
      have h255 : (255 &&& 255 : Nat) = 255 := by decide
      rw [h255]
    have hle : CHECKSUM_TABLE.getD ((x ^^^ b) &&& 0xFF) 0 ≤ 255 :=
      CHECKSUM_TABLE_getD_le _
    calc CHECKSUM_TABLE.getD ((x ^^^ b) &&& 0xFF) 0 &&& 255
        = CHECKSUM_TABLE.getD ((x ^^^ b) &&& 0xFF) 0 % 256 := and_255_eq_mod _
      _ = CHECKSUM_TABLE.getD ((x ^^^ b) &&& 0xFF) 0 := Nat.mod_eq_of_lt (by omega)
      _ = CHECKSUM_TABLE.getD (((x &&& 255) ^^^ b) &&& 0xFF) 0 := by
          rw [show (0xFF : Nat) = 255 from rfl, hxor]

/-- C9 witness: the table entry for byte value 3 agrees with eight
spec-described rounds, instantiating the quantified conjunct at `v = 3`. -/
theorem crc8_self_consistent_witness :
    (3 : Nat) < 256 ∧ CHECKSUM_TABLE.getD 3 0 = crc8_round_spec^[8] 3 :=
  ⟨by decide, crc8_self_consistent.2.1 3 (by decide)⟩

/-- C7: `energy_cmd` yields zero bytes for every value ≤ 0 (in particular 0
and -5), and for every positive value in the uint16 domain it yields exactly
one packet with cmd 0xAF whose payload is the value as a little-endian
unsigned 16-bit integer. -/
theorem energy_cmd_spec :
    ∀ (e : Int) (nf : Bool),
      (e ≤ 0 → energy_cmd e nf = .ok [])
      ∧ (0 < e → e < 65536 →
          energy_cmd e nf = .ok (make_packet 0xAF [e.toNat % 256, e.toNat / 256] nf))
      ∧ energy_cmd 0 nf = .ok [] ∧ energy_cmd (-5) nf = .ok [] := by
  intro e nf
  refine ⟨fun h => ?_, fun h1 h2 => ?_, by simp [energy_cmd], by norm_num [energy_cmd]⟩
  · simp [energy_cmd, h]
  · simp [energy_cmd, h2, not_le.mpr h1, le_of_lt]

/-- C7 witness: the theorem instantiated at the driver's image energy 5000
(positive branch) and at 0 and -5 (omission branch). -/
theorem energy_cmd_spec_witness :
    ((0 : Int) < 5000 ∧ (5000 : Int) < 65536
      ∧ energy_cmd 5000 false
          = .ok (make_packet 0xAF [(5000 : Int).toNat % 256, (5000 : Int).toNat / 256] false))
    ∧ energy_cmd 0 false = .ok [] ∧ energy_cmd (-5) false = .ok [] :=
  ⟨⟨by norm_num, by norm_num,
      (energy_cmd_spec 5000 false).2.1 (by norm_num) (by norm_num)⟩,
    (energy_cmd_spec 0 false).2.2.1, (energy_cmd_spec (-5) false).2.2.2⟩

/-- C6: raster validation precedes encoding — a raster failing any of the
three dimension conditions (positive width, width a multiple of 8, pixel
count a multiple of the width) makes the encoding pipeline fail before
emitting bytes, and in particular any width that is not a multiple of 8 makes
`build_line_packets` fail with the validation error and produce no bytes. -/
theorem raster_validation_precedes_encoding :
    (∀ (pixels : List Nat) (width speed : Nat) (compress lsb_first nf : Bool)
        (lfe : Nat), width % 8 ≠ 0 →
      build_line_packets pixels width speed compress lsb_first nf lfe
        = .error "Width must be divisible by 8")
    ∧ (∀ (r : Raster) (is_text : Bool) (speed : Nat) (energy : Int)
        (compress lsb_first nf : Bool),
        (r.width = 0 ∨ r.pixels.length % r.width ≠ 0 ∨ r.width % 8 ≠ 0) →
      ∃ msg, build_print_payload_from_raster r is_text speed energy compress
        lsb_first nf = .error msg) := by
  constructor
  · intro pixels width speed compress lsb_first nf lfe h
    simp [build_line_packets, h]
  · intro r is_text speed energy compress lsb_first nf h
    rcases h with h0 | hlen | h8
    · exact ⟨"Width must be greater than zero", by
        simp [build_print_payload_from_raster, Raster.validate, h0, except_bind_ok, except_bind_error]⟩
    · by_cases h0 : r.width = 0
      · exact ⟨"Width must be greater than zero", by
          simp [build_print_payload_from_raster, Raster.validate, h0, except_bind_ok, except_bind_error]⟩
      · exact ⟨"Pixels length must be a multiple of width", by
          simp [build_print_payload_from_raster, Raster.validate, h0, hlen, except_bind_ok, except_bind_error]⟩
    · by_cases h0 : r.width = 0
      · exact ⟨"Width must be greater than zero", by
          simp [build_print_payload_from_raster, Raster.validate, h0, except_bind_ok, except_bind_error]⟩
      · by_cases hlen : r.pixels.length % r.width ≠ 0
        · exact ⟨"Pixels length must be a multiple of width", by
            simp [build_print_payload_from_raster, Raster.validate, h0, hlen, except_bind_ok, except_bind_error]⟩
        · cases he : energy_cmd energy nf with
          | error msg =>
            exact ⟨msg, by
              simp [build_print_payload_from_raster, Raster.validate, h0, hlen,
                build_print_payload, he, except_bind_ok, except_bind_error]⟩
          | ok e =>
            exact ⟨"Width must be divisible by 8", by
              simp [build_print_payload_from_raster, Raster.validate, h0, hlen,
                build_print_payload, he, build_line_packets, h8, except_bind_ok, except_bind_error]⟩

/-- C6 witness: width 12 (not a multiple of 8) fails both at the line encoder
and through the raster pipeline. -/
theorem raster_validation_precedes_encoding_witness :
    ((12 : Nat) % 8 ≠ 0
      ∧ build_line_packets [0, 0, 0] 12 10 true true false 200
          = .error "Width must be divisible by 8")
    ∧ ((Raster.mk [0, 0, 0] 12).width = 0
        ∨ (Raster.mk [0, 0, 0] 12).pixels.length % (Raster.mk [0, 0, 0] 12).width ≠ 0
        ∨ (Raster.mk [0, 0, 0] 12).width % 8 ≠ 0)
      ∧ ∃ msg, build_print_payload_from_raster (Raster.mk [0, 0, 0] 12) false 10
          5000 true true false = .error msg :=
  ⟨⟨by decide,
      raster_validation_precedes_encoding.1 [0, 0, 0] 12 10 true true false 200
        (by decide)⟩,
    ⟨by right; left; decide,
      raster_validation_precedes_encoding.2 (Raster.mk [0, 0, 0] 12) false 10
        5000 true true false (by right; left; decide)⟩⟩

/-- C8: with flow control enabled, observing the 9-byte ON sentinel pauses
the sender (that step and every following step write zero bytes and stay
paused while no OFF sentinel arrives), and observing the OFF sentinel (with
no overriding ON in the same read) resumes chunked writing at the saved
offset, with a non-empty chunk whenever data remains and the chunk size is
positive. -/
theorem flow_control_pause :
    FLOW_ON = [0x51, 0x78, 0xAE, 0x01, 0x01, 0x00, 0x10, 0x70, 0xFF]
    ∧ FLOW_OFF = [0x51, 0x78, 0xAE, 0x01, 0x01, 0x00, 0x00, 0x00, 0xFF]
    ∧ (∀ (data : List Nat) (cs : Nat) (st : SendState) (pending : List Nat),
        bytes_in FLOW_ON pending = true →
        send_step true data cs st pending = ({ st with is_full := true }, []))
    ∧ (∀ (data : List Nat) (cs : Nat) (st : SendState)
        (pendings : List (List Nat)), st.is_full = true →
        (∀ p ∈ pendings, bytes_in FLOW_OFF p = false) →
        send_run true data cs st pendings = (st, []))
    ∧ (∀ (data : List Nat) (cs : Nat) (st : SendState) (pending : List Nat),
        st.is_full = true →
        bytes_in FLOW_OFF pending = true → bytes_in FLOW_ON pending = false →
        send_step true data cs st pending
          = ({ is_full := false,
               offset := st.offset + ((data.drop st.offset).take cs).length },
             (data.drop st.offset).take cs)
        ∧ (st.offset < data.length → 0 < cs →
            (data.drop st.offset).take cs ≠ [])) := by
  refine ⟨rfl, rfl, ?_, ?_, ?_⟩
  · intro data cs st pending hon
    simp [send_step, hon]
  · intro data cs st pendings hfull hoff
    induction pendings with
    | nil => simp [send_run]
    | cons p rest ih =>
      have hp := hoff p (List.mem_cons_self p rest)
      have hstep : send_step true data cs st p = ({ st with is_full := true }, []) := by
        by_cases hon : bytes_in FLOW_ON p
        · simp [send_step, hon]
        · simp [send_step, hon, hp, hfull]
      have hst : ({ st with is_full := true } : SendState) = st := by
        cases st with
        | mk f o => simp_all
      rw [hst] at hstep
      simp [send_run, hstep, ih (fun q hq => hoff q (List.mem_cons_of_mem p hq))]
  · intro data cs st pending hfull hoff hon
    constructor
    · simp [send_step, hon, hoff]
    · intro hlt hcs
      have hdrop : (data.drop st.offset).length = data.length - st.offset :=
        List.length_drop st.offset data
      intro hnil
      have := congrArg List.length hnil
      simp [List.length_take, hdrop] at this
      omega

/-- C8 witness: with data `[1,2,3,4]` and chunk size 2, a paused sender stays
silent across two OFF-free reads, and an OFF read resumes writing `[1, 2]`. -/
theorem flow_control_pause_witness :
    ((∀ p ∈ [[0x00], [0x51, 0x78]], bytes_in FLOW_OFF p = false)
      ∧ send_run true [1, 2, 3, 4] 2 (SendState.mk true 0) [[0x00], [0x51, 0x78]]
          = (SendState.mk true 0, []))
    ∧ bytes_in FLOW_ON FLOW_ON = true
    ∧ send_step true [1, 2, 3, 4] 2 (SendState.mk false 0) FLOW_ON
        = (SendState.mk true 0, [])
    ∧ send_step true [1, 2, 3, 4] 2 (SendState.mk true 0) FLOW_OFF
        = (SendState.mk false 2, [1, 2]) :=
  ⟨⟨by decide,
      flow_control_pause.2.2.2.1 [1, 2, 3, 4] 2 (SendState.mk true 0)
        [[0x00], [0x51, 0x78]] rfl (by decide)⟩,
    by decide,
    flow_control_pause.2.2.1 [1, 2, 3, 4] 2 (SendState.mk false 0) FLOW_ON
      (by decide),
    (flow_control_pause.2.2.2.2 [1, 2, 3, 4] 2 (SendState.mk true 0) FLOW_OFF
      rfl (by decide) (by decide)).1⟩

/-- C1: packet framing round-trip — `make_packet` emits the optional leading
`0x12` dialect marker (present exactly when the framing-dialect flag is set),
sync bytes `0x51 0x78`, the command id, one reserved zero byte, the payload
length as little-endian 16-bit, the payload, the CRC8 of the payload and a
trailing `0xFF`; and parsing the emitted bytes after stripping the marker
recovers `(cmd, length, payload, checksum)` matching the inputs.  `cmd` ranges
over the one-byte command-id domain and the payload length over the 16-bit
length-field domain. -/
theorem make_packet_roundtrip (cmd : Nat) (payload : List Nat) (nf : Bool)
    (hcmd : cmd < 256) (hlen : payload.length < 65536) :
    make_packet cmd payload nf
      = (if nf then [0x12] else [])
        ++ [0x51, 0x78, cmd, 0x00, payload.length % 256, payload.length / 256]
        ++ payload ++ [crc8 payload, 0xFF]
    ∧ parse_packet ((make_packet cmd payload nf).drop (if nf then 1 else 0))
      = some (cmd, payload.length, payload, crc8 payload) := by
  have hc : cmd &&& 0xFF = cmd := by
    rw [and_255_eq_mod]
    exact Nat.mod_eq_of_lt hcmd
  have hlo : payload.length &&& 0xFF = payload.length % 256 := and_255_eq_mod _
  have hhi : (payload.length >>> 8) &&& 0xFF = payload.length / 256 := by
    rw [shiftRight_8_eq_div, and_255_eq_mod]
    exact Nat.mod_eq_of_lt (by omega)
  have hcore : make_packet cmd payload nf
      = (if nf then [0x12] else [])
        ++ [0x51, 0x78, cmd, 0x00, payload.length % 256, payload.length / 256]
        ++ payload ++ [crc8 payload, 0xFF] := by
    unfold make_packet
    cases nf <;> simp [hc, hlo, hhi]
  refine ⟨hcore, ?_⟩
  have hdrop : (make_packet cmd payload nf).drop (if nf then 1 else 0)
      = 0x51 :: 0x78 :: cmd :: 0x00 :: (payload.length % 256)
        :: (payload.length / 256) :: (payload ++ [crc8 payload, 0xFF]) := by
    rw [hcore]
    cases nf <;> simp
  rw [hdrop]
  show (let len := payload.length % 256 + 256 * (payload.length / 256)
    let tail := (payload ++ [crc8 payload, 0xFF]).drop len
    if (payload ++ [crc8 payload, 0xFF]).length = len + 2 ∧ tail.getD 1 0 = 0xFF then
      some (cmd, len, (payload ++ [crc8 payload, 0xFF]).take len, tail.getD 0 0)
    else none) = some (cmd, payload.length, payload, crc8 payload)
  have hmod : payload.length % 256 + 256 * (payload.length / 256) = payload.length :=
    Nat.mod_add_div payload.length 256
  simp only [hmod]
  have htail : (payload ++ [crc8 payload, 0xFF]).drop payload.length
      = [crc8 payload, 0xFF] := List.drop_left payload [crc8 payload, 0xFF]
  have htake : (payload ++ [crc8 payload, 0xFF]).take payload.length = payload :=
    List.take_left payload [crc8 payload, 0xFF]
  simp [htail, htake, List.getD]

/-- C1 witness: the 300-dpi paper command packet (cmd `0xA1`, payload
`0x48 0x00`, dialect marker present) round-trips. -/
theorem make_packet_roundtrip_witness :
    ((0xA1 : Nat) < 256 ∧ ([0x48, 0x00] : List Nat).length < 65536)
    ∧ make_packet 0xA1 [0x48, 0x00] true
        = (if true then [0x12] else [])
          ++ [0x51, 0x78, 0xA1, 0x00, ([0x48, 0x00] : List Nat).length % 256,
              ([0x48, 0x00] : List Nat).length / 256]
          ++ [0x48, 0x00] ++ [crc8 [0x48, 0x00], 0xFF]
    ∧ parse_packet ((make_packet 0xA1 [0x48, 0x00] true).drop (if true then 1 else 0))
        = some (0xA1, ([0x48, 0x00] : List Nat).length, [0x48, 0x00], crc8 [0x48, 0x00]) :=
  ⟨⟨by decide, by decide⟩,
    (make_packet_roundtrip 0xA1 [0x48, 0x00] true (by decide) (by decide)).1,
    (make_packet_roundtrip 0xA1 [0x48, 0x00] true (by decide) (by decide)).2⟩

/-! ### Unfolding lemmas for the catalogue scan loops (definitional). -/

theorem pick_head_nil (nl : List Char) (acc : Option PrinterModel) :
    pick_head nl [] acc = acc := rfl

theorem pick_head_cons_pos_none (nl : List Char) (x : PrinterModel)
    (rest : List PrinterModel)
    (hx : x.head_name ≠ [] ∧ List.isPrefixOf (strLower x.head_name) nl) :
    pick_head nl (x :: rest) none = pick_head nl rest (some x) := by
  show (if x.head_name ≠ [] ∧ List.isPrefixOf (strLower x.head_name) nl then
      pick_head nl rest (some x)
    else pick_head nl rest none) = pick_head nl rest (some x)
  rw [if_pos hx]

theorem pick_head_cons_pos_some (nl : List Char) (x : PrinterModel)
    (rest : List PrinterModel) (cur : PrinterModel)
    (hx : x.head_name ≠ [] ∧ List.isPrefixOf (strLower x.head_name) nl) :
    pick_head nl (x :: rest) (some cur)
      = if x.head_name.length > cur.head_name.length then
          pick_head nl rest (some x)
        else pick_head nl rest (some cur) := by
  show (if x.head_name ≠ [] ∧ List.isPrefixOf (strLower x.head_name) nl then
      if x.head_name.length > cur.head_name.length then
        pick_head nl rest (some x)
      else pick_head nl rest (some cur)
    else pick_head nl rest (some cur)) = _
  rw [if_pos hx]

theorem pick_head_cons_neg (nl : List Char) (x : PrinterModel)
    (rest : List PrinterModel) (acc : Option PrinterModel)
    (hx : ¬(x.head_name ≠ [] ∧ List.isPrefixOf (strLower x.head_name) nl)) :
    pick_head nl (x :: rest) acc = pick_head nl rest acc := by
  cases acc with
  | none =>
    show (if x.head_name ≠ [] ∧ List.isPrefixOf (strLower x.head_name) nl then
        pick_head nl rest (some x)
      else pick_head nl rest none) = pick_head nl rest none
    rw [if_neg hx]
  | some cur =>
    show (if x.head_name ≠ [] ∧ List.isPrefixOf (strLower x.head_name) nl then
        if x.head_name.length > cur.head_name.length then
          pick_head nl rest (some x)
        else pick_head nl rest (some cur)
      else pick_head nl rest (some cur)) = pick_head nl rest (some cur)
    rw [if_neg hx]

theorem pick_model_no_nil (nl : List Char) (acc : Option PrinterModel) :
    pick_model_no nl [] acc = acc := rfl

theorem pick_model_no_cons_pos_none (nl : List Char) (x : PrinterModel)
    (rest : List PrinterModel)
    (hx : List.isPrefixOf (strLower x.model_no) nl) :
    pick_model_no nl (x :: rest) none = pick_model_no nl rest (some x) := by
  show (if List.isPrefixOf (strLower x.model_no) nl then
      pick_model_no nl rest (some x)
    else pick_model_no nl rest none) = pick_model_no nl rest (some x)
  rw [if_pos hx]

theorem pick_model_no_cons_pos_some (nl : List Char) (x : PrinterModel)
    (rest : List PrinterModel) (cur : PrinterModel)
    (hx : List.isPrefixOf (strLower x.model_no) nl) :
    pick_model_no nl (x :: rest) (some cur)
      = if x.model_no.length > cur.model_no.length then
          pick_model_no nl rest (some x)
        else pick_model_no nl rest (some cur) := by
  show (if List.isPrefixOf (strLower x.model_no) nl then
      if x.model_no.length > cur.model_no.length then
        pick_model_no nl rest (some x)
      else pick_model_no nl rest (some cur)
    else pick_model_no nl rest (some cur)) = _
  rw [if_pos hx]

theorem pick_model_no_cons_neg (nl : List Char) (x : PrinterModel)
    (rest : List PrinterModel) (acc : Option PrinterModel)
    (hx : ¬ List.isPrefixOf (strLower x.model_no) nl = true) :
    pick_model_no nl (x :: rest) acc = pick_model_no nl rest acc := by
  cases acc with
  | none =>
    show (if List.isPrefixOf (strLower x.model_no) nl then
        pick_model_no nl rest (some x)
      else pick_model_no nl rest none) = pick_model_no nl rest none
    rw [if_neg hx]
  | some cur =>
    show (if List.isPrefixOf (strLower x.model_no) nl then
        if x.model_no.length > cur.model_no.length then
          pick_model_no nl rest (some x)
        else pick_model_no nl rest (some cur)
      else pick_model_no nl rest (some cur)) = pick_model_no nl rest (some cur)
    rw [if_neg hx]

theorem pick_head_some (nl : List Char) (l : List PrinterModel) :
    ∀ (acc : Option PrinterModel) (m : PrinterModel),
      pick_head nl l acc = some m →
      acc = some m
      ∨ (m ∈ l ∧ m.head_name ≠ [] ∧ List.isPrefixOf (strLower m.head_name) nl) := by
  induction l with
  | nil =>
    intro acc m h
    exact Or.inl h
  | cons x rest ih =>
    intro acc m h
    by_cases hx : x.head_name ≠ [] ∧ List.isPrefixOf (strLower x.head_name) nl
    · cases acc with
      | none =>
        rw [pick_head_cons_pos_none nl x rest hx] at h
        rcases ih (some x) m h with h1 | h2
        · have hxm : x = m := Option.some_inj.mp h1
          subst hxm
          exact Or.inr ⟨List.mem_cons_self x rest, hx⟩
        · exact Or.inr ⟨List.mem_cons_of_mem x h2.1, h2.2⟩
      | some cur =>
        rw [pick_head_cons_pos_some nl x rest cur hx] at h
        by_cases hlen : x.head_name.length > cur.head_name.length
        · rw [if_pos hlen] at h
          rcases ih (some x) m h with h1 | h2
          · have hxm : x = m := Option.some_inj.mp h1
            subst hxm
            exact Or.inr ⟨List.mem_cons_self x rest, hx⟩
          · exact Or.inr ⟨List.mem_cons_of_mem x h2.1, h2.2⟩
        · rw [if_neg hlen] at h
          rcases ih (some cur) m h with h1 | h2
          · exact Or.inl h1
          · exact Or.inr ⟨List.mem_cons_of_mem x h2.1, h2.2⟩
    · rw [pick_head_cons_neg nl x rest acc hx] at h
      rcases ih acc m h with h1 | h2
      · exact Or.inl h1
      · exact Or.inr ⟨List.mem_cons_of_mem x h2.1, h2.2⟩

theorem pick_head_eq_none (nl : List Char) (l : List PrinterModel) :
    ∀ (acc : Option PrinterModel), pick_head nl l acc = none →
      acc = none
      ∧ ∀ m ∈ l, ¬(m.head_name ≠ [] ∧ List.isPrefixOf (strLower m.head_name) nl) := by
  induction l with
  | nil =>
    intro acc h
    exact ⟨h, by simp⟩
  | cons x rest ih =>
    intro acc h
    by_cases hx : x.head_name ≠ [] ∧ List.isPrefixOf (strLower x.head_name) nl
    · cases acc with
      | none =>
        rw [pick_head_cons_pos_none nl x rest hx] at h
        exact absurd ((ih (some x) h).1) (by simp)
      | some cur =>
        rw [pick_head_cons_pos_some nl x rest cur hx] at h
        by_cases hlen : x.head_name.length > cur.head_name.length
        · rw [if_pos hlen] at h
          exact absurd ((ih (some x) h).1) (by simp)
        · rw [if_neg hlen] at h
          exact absurd ((ih (some cur) h).1) (by simp)
    · rw [pick_head_cons_neg nl x rest acc hx] at h
      have hr := ih acc h
      refine ⟨hr.1, ?_⟩
      intro m hm
      rcases List.mem_cons.mp hm with rfl | hm2
      · exact hx
      · exact hr.2 m hm2

theorem pick_head_max (nl : List Char) (l : List PrinterModel) :
    ∀ (acc : Option PrinterModel) (m : PrinterModel),
      pick_head nl l acc = some m →
      (∀ m2 ∈ l, m2.head_name ≠ [] → List.isPrefixOf (strLower m2.head_name) nl →
        m2.head_name.length ≤ m.head_name.length)
      ∧ (∀ c, acc = some c → c.head_name.length ≤ m.head_name.length) := by
  induction l with
  | nil =>
    intro acc m h
    refine ⟨by simp, ?_⟩
    intro c hc
    rw [hc, pick_head_nil] at h
    rw [Option.some_inj.mp h]
  | cons x rest ih =>
    intro acc m h
    by_cases hx : x.head_name ≠ [] ∧ List.isPrefixOf (strLower x.head_name) nl
    · cases acc with
      | none =>
        rw [pick_head_cons_pos_none nl x rest hx] at h
        have hr := ih (some x) m h
        refine ⟨?_, by simp⟩
        intro m2 hm2 h1 h2
        rcases List.mem_cons.mp hm2 with rfl | hmem
        · exact hr.2 m2 rfl
        · exact hr.1 m2 hmem h1 h2
      | some cur =>
        rw [pick_head_cons_pos_some nl x rest cur hx] at h
        by_cases hlen : x.head_name.length > cur.head_name.length
        · rw [if_pos hlen] at h
          have hr := ih (some x) m h
          have hxm : x.head_name.length ≤ m.head_name.length := hr.2 x rfl
          refine ⟨?_, ?_⟩
          · intro m2 hm2 h1 h2
            rcases List.mem_cons.mp hm2 with rfl | hmem
            · exact hxm
            · exact hr.1 m2 hmem h1 h2
          · intro c hc
            have : c = cur := Option.some_inj.mp hc.symm
            subst this
            omega
        · rw [if_neg hlen] at h
          have hr := ih (some cur) m h
          have hcm : cur.head_name.length ≤ m.head_name.length := hr.2 cur rfl
          refine ⟨?_, ?_⟩
          · intro m2 hm2 h1 h2
            rcases List.mem_cons.mp hm2 with rfl | hmem
            · omega
            · exact hr.1 m2 hmem h1 h2
          · intro c hc
            have : c = cur := Option.some_inj.mp hc.symm
            subst this
            exact hcm
    · rw [pick_head_cons_neg nl x rest acc hx] at h
      have hr := ih acc m h
      refine ⟨?_, hr.2⟩
      intro m2 hm2 h1 h2
      rcases List.mem_cons.mp hm2 with rfl | hmem
      · exact absurd ⟨h1, h2⟩ hx
      · exact hr.1 m2 hmem h1 h2

theorem pick_model_no_some (nl : List Char) (l : List PrinterModel) :
    ∀ (acc : Option PrinterModel) (m : PrinterModel),
      pick_model_no nl l acc = some m →
      acc = some m ∨ (m ∈ l ∧ List.isPrefixOf (strLower m.model_no) nl) := by
  induction l with
  | nil =>
    intro acc m h
    exact Or.inl h
  | cons x rest ih =>
    intro acc m h
    by_cases hx : List.isPrefixOf (strLower x.model_no) nl = true
    · cases acc with
      | none =>
        rw [pick_model_no_cons_pos_none nl x rest hx] at h
        rcases ih (some x) m h with h1 | h2
        · have hxm : x = m := Option.some_inj.mp h1
          subst hxm
          exact Or.inr ⟨List.mem_cons_self x rest, hx⟩
        · exact Or.inr ⟨List.mem_cons_of_mem x h2.1, h2.2⟩
      | some cur =>
        rw [pick_model_no_cons_pos_some nl x rest cur hx] at h
        by_cases hlen : x.model_no.length > cur.model_no.length
        · rw [if_pos hlen] at h
          rcases ih (some x) m h with h1 | h2
          · have hxm : x = m := Option.some_inj.mp h1
            subst hxm
            exact Or.inr ⟨List.mem_cons_self x rest, hx⟩
          · exact Or.inr ⟨List.mem_cons_of_mem x h2.1, h2.2⟩
        · rw [if_neg hlen] at h
          rcases ih (some cur) m h with h1 | h2
          · exact Or.inl h1
          · exact Or.inr ⟨List.mem_cons_of_mem x h2.1, h2.2⟩
    · rw [pick_model_no_cons_neg nl x rest acc hx] at h
      rcases ih acc m h with h1 | h2
      · exact Or.inl h1
      · exact Or.inr ⟨List.mem_cons_of_mem x h2.1, h2.2⟩

theorem pick_model_no_eq_none (nl : List Char) (l : List PrinterModel) :
    ∀ (acc : Option PrinterModel), pick_model_no nl l acc = none →
      acc = none ∧ ∀ m ∈ l, ¬ List.isPrefixOf (strLower m.model_no) nl = true := by
  induction l with
  | nil =>
    intro acc h
    exact ⟨h, by simp⟩
  | cons x rest ih =>
    intro acc h
    by_cases hx : List.isPrefixOf (strLower x.model_no) nl = true
    · cases acc with
      | none =>
        rw [pick_model_no_cons_pos_none nl x rest hx] at h
        exact absurd ((ih (some x) h).1) (by simp)
      | some cur =>
        rw [pick_model_no_cons_pos_some nl x rest cur hx] at h
        by_cases hlen : x.model_no.length > cur.model_no.length
        · rw [if_pos hlen] at h
          exact absurd ((ih (some x) h).1) (by simp)
        · rw [if_neg hlen] at h
          exact absurd ((ih (some cur) h).1) (by simp)
    · rw [pick_model_no_cons_neg nl x rest acc hx] at h
      have hr := ih acc h
      refine ⟨hr.1, ?_⟩
      intro m hm
      rcases List.mem_cons.mp hm with rfl | hm2
      · exact hx
      · exact hr.2 m hm2

theorem pick_model_no_max (nl : List Char) (l : List PrinterModel) :
    ∀ (acc : Option PrinterModel) (m : PrinterModel),
      pick_model_no nl l acc = some m →
      (∀ m2 ∈ l, List.isPrefixOf (strLower m2.model_no) nl →
        m2.model_no.length ≤ m.model_no.length)
      ∧ (∀ c, acc = some c → c.model_no.length ≤ m.model_no.length) := by
  induction l with
  | nil =>
    intro acc m h
    refine ⟨by simp, ?_⟩
    intro c hc
    rw [hc, pick_model_no_nil] at h
    rw [Option.some_inj.mp h]
  | cons x rest ih =>
    intro acc m h
    by_cases hx : List.isPrefixOf (strLower x.model_no) nl = true
    · cases acc with
      | none =>
        rw [pick_model_no_cons_pos_none nl x rest hx] at h
        have hr := ih (some x) m h
        refine ⟨?_, by simp⟩
        intro m2 hm2 h2
        rcases List.mem_cons.mp hm2 with rfl | hmem
        · exact hr.2 m2 rfl
        · exact hr.1 m2 hmem h2
      | some cur =>
        rw [pick_model_no_cons_pos_some nl x rest cur hx] at h
        by_cases hlen : x.model_no.length > cur.model_no.length
        · rw [if_pos hlen] at h
          have hr := ih (some x) m h
          have hxm : x.model_no.length ≤ m.model_no.length := hr.2 x rfl
          refine ⟨?_, ?_⟩
          · intro m2 hm2 h2
            rcases List.mem_cons.mp hm2 with rfl | hmem
            · exact hxm
            · exact hr.1 m2 hmem h2
          · intro c hc
            have : c = cur := Option.some_inj.mp hc.symm
            subst this
            omega
        · rw [if_neg hlen] at h
          have hr := ih (some cur) m h
          have hcm : cur.model_no.length ≤ m.model_no.length := hr.2 cur rfl
          refine ⟨?_, ?_⟩
          · intro m2 hm2 h2
            rcases List.mem_cons.mp hm2 with rfl | hmem
            · omega
            · exact hr.1 m2 hmem h2
          · intro c hc
            have : c = cur := Option.some_inj.mp hc.symm
            subst this
            exact hcm
    · rw [pick_model_no_cons_neg nl x rest acc hx] at h
      have hr := ih acc m h
      refine ⟨?_, hr.2⟩
      intro m2 hm2 h2
      rcases List.mem_cons.mp hm2 with rfl | hmem
      · exact absurd h2 hx
      · exact hr.1 m2 hmem h2

/-- C5: `detect_from_device_name` matches case-insensitively and prefers the
longest head-name head of the advertised name over all catalogue entries;
when no head name matches it falls back to the longest model-number match;
it returns no match when neither succeeds; and with catalogue head names
"EM" and "EMX1", the advertised name "EMX1000" resolves to the "EMX1"
entry. -/
theorem detect_from_device_name_spec :
    (∀ (models : List PrinterModel) (name : List Char) (m : PrinterModel),
        detect_from_device_name models name = some m →
        m ∈ models
        ∧ ((m.head_name ≠ []
              ∧ List.isPrefixOf (strLower m.head_name) (strLower name)
              ∧ ∀ m2 ∈ models, m2.head_name ≠ [] →
                  List.isPrefixOf (strLower m2.head_name) (strLower name) →
                  m2.head_name.length ≤ m.head_name.length)
            ∨ ((∀ m2 ∈ models,
                  ¬(m2.head_name ≠ []
                    ∧ List.isPrefixOf (strLower m2.head_name) (strLower name)))
                ∧ List.isPrefixOf (strLower m.model_no) (strLower name)
                ∧ ∀ m2 ∈ models,
                    List.isPrefixOf (strLower m2.model_no) (strLower name) →
                    m2.model_no.length ≤ m.model_no.length)))
    ∧ (∀ (models : List PrinterModel) (name : List Char),
        detect_from_device_name models name = none → name ≠ [] →
        ∀ m ∈ models,
          ¬(m.head_name ≠ [] ∧ List.isPrefixOf (strLower m.head_name) (strLower name))
          ∧ ¬ List.isPrefixOf (strLower m.model_no) (strLower name) = true)
    ∧ detect_from_device_name
        [PrinterModel.mk "X1".toList "EM".toList,
         PrinterModel.mk "X2".toList "EMX1".toList]
        "EMX1000".toList
      = some (PrinterModel.mk "X2".toList "EMX1".toList) := by
  refine ⟨?_, ?_, by decide⟩
  · intro models name m h
    by_cases hname : name = []
    · rw [hname] at h
      exact absurd h (by simp [detect_from_device_name])
    · have hd : detect_from_device_name models name
          = (if name = [] then none
             else match pick_head (strLower name) models none with
               | some m1 => some m1
               | none => pick_model_no (strLower name) models none) := rfl
      rw [hd, if_neg hname] at h
      cases hph : pick_head (strLower name) models none with
      | some m1 =>
        rw [hph] at h
        have h2 : some m1 = some m := h
        have hm1 : m1 = m := Option.some_inj.mp h2
        subst hm1
        rcases pick_head_some (strLower name) models none m1 hph with h3 | h3
        · exact absurd h3 (by simp)
        · have hmax := pick_head_max (strLower name) models none m1 hph
          exact ⟨h3.1, Or.inl ⟨h3.2.1, h3.2.2, hmax.1⟩⟩
      | none =>
        rw [hph] at h
        have h2 : pick_model_no (strLower name) models none = some m := h
        have hnone := pick_head_eq_none (strLower name) models none hph
        rcases pick_model_no_some (strLower name) models none m h2 with h3 | h3
        · exact absurd h3 (by simp)
        · have hmax := pick_model_no_max (strLower name) models none m h2
          exact ⟨h3.1, Or.inr ⟨hnone.2, h3.2, hmax.1⟩⟩
  · intro models name h hname m hm
    have hd : detect_from_device_name models name
        = (if name = [] then none
           else match pick_head (strLower name) models none with
             | some m1 => some m1
             | none => pick_model_no (strLower name) models none) := rfl
    rw [hd, if_neg hname] at h
    cases hph : pick_head (strLower name) models none with
    | some m1 =>
      rw [hph] at h
      exact absurd (h : some m1 = none) (by simp)
    | none =>
      rw [hph] at h
      have h2 : pick_model_no (strLower name) models none = none := h
      exact ⟨(pick_head_eq_none (strLower name) models none hph).2 m hm,
             (pick_model_no_eq_none (strLower name) models none h2).2 m hm⟩

/-- C5 witness: instantiates the characterization at the two-entry catalogue
of the claim's example, where the detector picks the longer "EMX1" head. -/
theorem detect_from_device_name_spec_witness :
    (detect_from_device_name
        [PrinterModel.mk "X1".toList "EM".toList,
         PrinterModel.mk "X2".toList "EMX1".toList]
        "EMX1000".toList
      = some (PrinterModel.mk "X2".toList "EMX1".toList)
    ∧ (PrinterModel.mk "X2".toList "EMX1".toList)
        ∈ [PrinterModel.mk "X1".toList "EM".toList,
           PrinterModel.mk "X2".toList "EMX1".toList])
    ∧ (∀ m ∈ [PrinterModel.mk "X1".toList "EM".toList,
              PrinterModel.mk "X2".toList "EMX1".toList],
        ¬(m.head_name ≠ []
          ∧ List.isPrefixOf (strLower m.head_name) (strLower "ZZZ".toList))
        ∧ ¬ List.isPrefixOf (strLower m.model_no) (strLower "ZZZ".toList) = true) :=
  And.intro
    (And.intro detect_from_device_name_spec.2.2
      (detect_from_device_name_spec.1
        [PrinterModel.mk "X1".toList "EM".toList,
         PrinterModel.mk "X2".toList "EMX1".toList]
        "EMX1000".toList
        (PrinterModel.mk "X2".toList "EMX1".toList)
        detect_from_device_name_spec.2.2).1)
    (detect_from_device_name_spec.2.1
      [PrinterModel.mk "X1".toList "EM".toList,
       PrinterModel.mk "X2".toList "EMX1".toList]
      "ZZZ".toList (by decide) (by decide))

/-! ### RLE correctness lemmas -/

theorem rle_expand_append (a b : List Nat) :
    rle_expand (a ++ b) = rle_expand a ++ rle_expand b := by
  simp [rle_expand]

theorem rle_expand_cons (b : Nat) (l : List Nat) :
    rle_expand (b :: l) = List.replicate (b % 128) (b / 128) ++ rle_expand l := by
  simp [rle_expand]

theorem lor128_eq : ∀ k < 128, 128 ||| k = 128 + k := by decide

theorem lor_byte (color k : Nat) (hc : color ≤ 1) (hk1 : 0 < k) (hk : k ≤ 127) :
    ((color <<< 7) ||| k) / 128 = color ∧ ((color <<< 7) ||| k) % 128 = k := by
  interval_cases color
  · simp [Nat.zero_or]
    omega
  · have h128 : (1 : Nat) <<< 7 = 128 := by decide
    rw [h128, lor128_eq k (by omega)]
    omega

set_option maxRecDepth 4000 in
theorem expand_encode_run (color : Nat) (hc : color ≤ 1) :
    ∀ count, rle_expand (encode_run color count) = List.replicate count color := by
  intro count
  induction count using Nat.strong_induction_on with
  | _ n ih =>
    rw [encode_run]
    by_cases h1 : 127 < n
    · rw [if_pos h1]
      rw [rle_expand_cons]
      rw [(lor_byte color 127 hc (by omega) (by omega)).1]
      rw [(lor_byte color 127 hc (by omega) (by omega)).2]
      rw [ih (n - 127) (by omega)]
      rw [← List.replicate_add]
      congr 1
      omega
    · rw [if_neg h1]
      by_cases h2 : 0 < n
      · rw [if_pos h2, rle_expand_cons,
          (lor_byte color n hc h2 (by omega)).1,
          (lor_byte color n hc h2 (by omega)).2]
        simp [rle_expand]
      · rw [if_neg h2]
        have : n = 0 := by omega
        simp [this, rle_expand]

-- loop unfolding (definitional)
theorem rle_loop_nil (runs : List Nat) (prev count hb : Nat) :
    rle_loop [] runs prev count hb = (runs, prev, count, hb) := rfl

theorem rle_loop_cons (pix : Nat) (rest runs : List Nat) (prev count hb : Nat) :
    rle_loop (pix :: rest) runs prev count hb
      = if pix = prev then rle_loop rest runs prev (count + 1) (if pix ≠ 0 then 1 else hb)
        else rle_loop rest (runs ++ encode_run prev count) pix 1 (if pix ≠ 0 then 1 else hb) := rfl

theorem rle_loop_inv (rest : List Nat) :
    ∀ (runs : List Nat) (prev count hb : Nat),
      (∀ p ∈ rest, p ≤ 1) → prev ≤ 1 → 0 < count → (hb = 0 → prev = 0) →
      (rle_expand (rle_loop rest runs prev count hb).1
          ++ List.replicate (rle_loop rest runs prev count hb).2.2.1
               (rle_loop rest runs prev count hb).2.1
        = rle_expand runs ++ List.replicate count prev ++ rest)
      ∧ (rle_loop rest runs prev count hb).2.1 ≤ 1
      ∧ 0 < (rle_loop rest runs prev count hb).2.2.1
      ∧ ((rle_loop rest runs prev count hb).2.2.2 = 0 →
          (rle_loop rest runs prev count hb).1 = runs
          ∧ (rle_loop rest runs prev count hb).2.1 = prev
          ∧ hb = 0 ∧ ∀ p ∈ rest, p = 0) := by
  induction rest with
  | nil =>
    intro runs prev count hb _ hprev hcount _
    rw [rle_loop_nil]
    refine ⟨by simp, hprev, hcount, ?_⟩
    intro h
    exact ⟨rfl, rfl, h, by simp⟩
  | cons pix rest' ih =>
    intro runs prev count hb hrest hprev hcount hhb
    have hpix : pix ≤ 1 := hrest pix (List.mem_cons_self pix rest')
    have hrest' : ∀ p ∈ rest', p ≤ 1 := fun p hp => hrest p (List.mem_cons_of_mem pix hp)
    rw [rle_loop_cons]
    by_cases hp : pix = prev
    · rw [if_pos hp]
      have hhb' : (if pix ≠ 0 then 1 else hb) = 0 → prev = 0 := by
        by_cases hz : pix ≠ 0
        · simp [hz]
        · simp [hz]
          intro h
          exact hhb h
      have hr := ih runs prev (count + 1) (if pix ≠ 0 then 1 else hb) hrest' hprev
        (by omega) hhb'
      refine ⟨?_, hr.2.1, hr.2.2.1, ?_⟩
      · rw [hr.1]
        have : List.replicate (count + 1) prev = List.replicate count prev ++ [prev] :=
          List.replicate_succ' count prev
        rw [this, hp]
        simp [List.append_assoc]
      · intro h
        have h4 := hr.2.2.2 h
        refine ⟨h4.1, h4.2.1, ?_, ?_⟩
        · have := h4.2.2.1
          by_cases hz : pix ≠ 0
          · simp [hz] at this
          · simpa [hz] using this
        · intro p hpm
          rcases List.mem_cons.mp hpm with rfl | hm
          · have := h4.2.2.1
            by_cases hz : p ≠ 0
            · simp [hz] at this
            · omega
          · exact h4.2.2.2 p hm
    · rw [if_neg hp]
      have hhb2 : (if pix ≠ 0 then 1 else hb) = 0 → pix = 0 := by
        by_cases hz : pix ≠ 0
        · simp [hz]
        · intro h0
          omega
      have hr := ih (runs ++ encode_run prev count) pix 1 (if pix ≠ 0 then 1 else hb)
        hrest' hpix (by omega) hhb2
      refine ⟨?_, hr.2.1, hr.2.2.1, ?_⟩
      · rw [hr.1, rle_expand_append, expand_encode_run prev hprev count]
        simp [List.append_assoc]
      · intro h
        have h4 := hr.2.2.2 h
        exfalso
        have hpz : pix = 0 := by
          have := h4.2.2.1
          by_cases hz : pix ≠ 0
          · simp [hz] at this
          · omega
        have hbz : hb = 0 := by
          have := h4.2.2.1
          by_cases hz : pix ≠ 0
          · simp [hz] at this
          · simpa [hz] using this
        have : prev = 0 := hhb hbz
        exact hp (by omega)

theorem encode_run_ne_nil (color count : Nat) (h : 0 < count) :
    encode_run color count ≠ [] := by
  rw [encode_run]
  by_cases h1 : 127 < count
  · simp [h1]
  · simp [h1, h]

theorem rle_encode_line_cons (p : Nat) (rest : List Nat) :
    rle_encode_line (p :: rest)
      = (fun s : List Nat × Nat × Nat × Nat =>
          (fun runs2 =>
            if runs2.isEmpty then runs2 ++ encode_run s.2.1 s.2.2.1 else runs2)
          (if s.2.2.2 ≠ 0 then s.1 ++ encode_run s.2.1 s.2.2.1 else s.1))
        (rle_loop rest [] p 1 (if p ≠ 0 then 1 else 0)) := rfl

theorem rle_roundtrip_aux (line : List Nat) (hline : ∀ p ∈ line, p ≤ 1) :
    rle_expand (rle_encode_line line) = line := by
  cases line with
  | nil => rfl
  | cons p rest =>
    have hp : p ≤ 1 := hline p (List.mem_cons_self p rest)
    have hrest : ∀ q ∈ rest, q ≤ 1 := fun q hq => hline q (List.mem_cons_of_mem p hq)
    have hb0 : (if p ≠ 0 then 1 else 0) = 0 → p = 0 := by
      by_cases hz : p ≠ 0
      · simp [hz]
      · intro _
        omega
    have hinv := rle_loop_inv rest [] p 1 (if p ≠ 0 then 1 else 0) hrest hp
      (by omega) hb0
    set s := rle_loop rest [] p 1 (if p ≠ 0 then 1 else 0) with hs
    have hshow : rle_encode_line (p :: rest)
        = (if (if s.2.2.2 ≠ 0 then s.1 ++ encode_run s.2.1 s.2.2.1 else s.1).isEmpty then
            (if s.2.2.2 ≠ 0 then s.1 ++ encode_run s.2.1 s.2.2.1 else s.1)
              ++ encode_run s.2.1 s.2.2.1
          else (if s.2.2.2 ≠ 0 then s.1 ++ encode_run s.2.1 s.2.2.1 else s.1)) := rfl
    rw [hshow]
    by_cases hhb : s.2.2.2 ≠ 0
    · rw [if_pos hhb]
      have hne : s.1 ++ encode_run s.2.1 s.2.2.1 ≠ [] := by
        intro hcontra
        have := List.append_eq_nil.mp hcontra
        exact encode_run_ne_nil s.2.1 s.2.2.1 hinv.2.2.1 this.2
      have hempty : (s.1 ++ encode_run s.2.1 s.2.2.1).isEmpty = false := by
        rcases h : s.1 ++ encode_run s.2.1 s.2.2.1 with _ | ⟨a, l⟩
        · exact absurd h hne
        · rfl
      simp only [hempty, Bool.false_eq_true, if_false]
      rw [rle_expand_append, expand_encode_run s.2.1 hinv.2.1 s.2.2.1]
      have h1 := hinv.1
      simpa using h1
    · rw [if_neg hhb]
      have h4 := hinv.2.2.2 (by omega)
      have hs1 : s.1 = [] := h4.1
      rw [hs1]
      show rle_expand ([] ++ encode_run s.2.1 s.2.2.1) = p :: rest
      rw [List.nil_append, expand_encode_run s.2.1 hinv.2.1 s.2.2.1]
      have h1 := hinv.1
      rw [hs1] at h1
      simpa using h1

theorem rle_loop_count_pos (rest : List Nat) :
    ∀ (runs : List Nat) (prev count hb : Nat), 0 < count →
      0 < (rle_loop rest runs prev count hb).2.2.1 := by
  induction rest with
  | nil =>
    intro runs prev count hb h
    rw [rle_loop_nil]
    exact h
  | cons pix rest' ih =>
    intro runs prev count hb h
    rw [rle_loop_cons]
    by_cases hp : pix = prev
    · rw [if_pos hp]
      exact ih runs prev (count + 1) _ (by omega)
    · rw [if_neg hp]
      exact ih (runs ++ encode_run prev count) pix 1 _ (by omega)

theorem rle_encode_line_ne_nil (line : List Nat) (h : line ≠ []) :
    rle_encode_line line ≠ [] := by
  cases line with
  | nil => exact absurd rfl h
  | cons p rest =>
    set s := rle_loop rest [] p 1 (if p ≠ 0 then 1 else 0) with hs
    have hcount : 0 < s.2.2.1 := rle_loop_count_pos rest [] p 1 _ (by omega)
    have hshow : rle_encode_line (p :: rest)
        = (if (if s.2.2.2 ≠ 0 then s.1 ++ encode_run s.2.1 s.2.2.1 else s.1).isEmpty then
            (if s.2.2.2 ≠ 0 then s.1 ++ encode_run s.2.1 s.2.2.1 else s.1)
              ++ encode_run s.2.1 s.2.2.1
          else (if s.2.2.2 ≠ 0 then s.1 ++ encode_run s.2.1 s.2.2.1 else s.1)) := rfl
    rw [hshow]
    set runs2 := if s.2.2.2 ≠ 0 then s.1 ++ encode_run s.2.1 s.2.2.1 else s.1 with hr2
    by_cases hempty : runs2.isEmpty
    · rw [if_pos hempty]
      intro hcontra
      exact encode_run_ne_nil s.2.1 s.2.2.1 hcount (List.append_eq_nil.mp hcontra).2
    · rw [if_neg hempty]
      intro hcontra
      rw [hcontra] at hempty
      exact hempty rfl

-- constant-line loop evaluation
theorem rle_loop_ones (k : Nat) :
    ∀ (runs : List Nat) (count : Nat),
      rle_loop (List.replicate k 1) runs 1 count 1 = (runs, 1, count + k, 1) := by
  induction k with
  | zero =>
    intro runs count
    rw [List.replicate_zero, rle_loop_nil, Nat.add_zero]
  | succ m ih =>
    intro runs count
    rw [List.replicate_succ, rle_loop_cons]
    norm_num
    rw [ih runs (count + 1)]
    rw [show count + 1 + m = count + (m + 1) from by omega]

theorem rle_loop_zeros (k : Nat) :
    ∀ (runs : List Nat) (count : Nat),
      rle_loop (List.replicate k 0) runs 0 count 0 = (runs, 0, count + k, 0) := by
  induction k with
  | zero =>
    intro runs count
    rw [List.replicate_zero, rle_loop_nil, Nat.add_zero]
  | succ m ih =>
    intro runs count
    rw [List.replicate_succ, rle_loop_cons]
    norm_num
    rw [ih runs (count + 1)]
    rw [show count + 1 + m = count + (m + 1) from by omega]

set_option maxRecDepth 4000 in
theorem encode_run_0_384 : encode_run 0 384 = [127, 127, 127, 3] := by
  rw [encode_run]
  norm_num
  rw [encode_run]
  norm_num
  rw [encode_run]
  norm_num
  rw [encode_run]
  norm_num

set_option maxRecDepth 4000 in
theorem encode_run_1_384 : encode_run 1 384 = [255, 255, 255, 131] := by
  rw [encode_run]
  norm_num
  rw [encode_run]
  norm_num
  rw [encode_run]
  norm_num
  rw [encode_run]
  norm_num
  decide

theorem rle_allwhite_384 : rle_encode_line (List.replicate 384 0) = [127, 127, 127, 3] := by
  have h384 : (List.replicate 384 (0 : Nat)) = 0 :: List.replicate 383 0 := rfl
  rw [h384]
  have hshow : rle_encode_line (0 :: List.replicate 383 0)
      = (let s := rle_loop (List.replicate 383 0) [] 0 1 (if (0 : Nat) ≠ 0 then 1 else 0)
         let runs2 := if s.2.2.2 ≠ 0 then s.1 ++ encode_run s.2.1 s.2.2.1 else s.1
         if runs2.isEmpty then runs2 ++ encode_run s.2.1 s.2.2.1 else runs2) := rfl
  rw [hshow]
  have hb : (if (0 : Nat) ≠ 0 then 1 else 0) = 0 := by norm_num
  rw [hb, rle_loop_zeros 383 [] 1]
  simp [encode_run_0_384]

theorem rle_allblack_384 : rle_encode_line (List.replicate 384 1) = [255, 255, 255, 131] := by
  have h384 : (List.replicate 384 (1 : Nat)) = 1 :: List.replicate 383 1 := rfl
  rw [h384]
  have hshow : rle_encode_line (1 :: List.replicate 383 1)
      = (let s := rle_loop (List.replicate 383 1) [] 1 1 (if (1 : Nat) ≠ 0 then 1 else 0)
         let runs2 := if s.2.2.2 ≠ 0 then s.1 ++ encode_run s.2.1 s.2.2.1 else s.1
         if runs2.isEmpty then runs2 ++ encode_run s.2.1 s.2.2.1 else runs2) := rfl
  rw [hshow]
  have hb : (if (1 : Nat) ≠ 0 then 1 else 0) = 1 := by norm_num
  rw [hb, rle_loop_ones 383 [] 1]
  simp [encode_run_1_384]

/-! ### Bit-packing and line-walk lemmas -/

theorem pack_line_nil (lsb : Bool) : pack_line [] lsb = [] := by
  rw [pack_line]

theorem pack_line_cons (p : Nat) (rest : List Nat) (lsb : Bool) :
    pack_line (p :: rest) lsb
      = pack_byte ((p :: rest).take 8) lsb :: pack_line (rest.drop 7) lsb := by
  rw [pack_line]

theorem pack_line_length_aux :
    ∀ (n : Nat) (line : List Nat), line.length ≤ n → ∀ lsb : Bool,
      (pack_line line lsb).length = (line.length + 7) / 8 := by
  intro n
  induction n with
  | zero =>
    intro line h lsb
    have hnil : line = [] := List.eq_nil_of_length_eq_zero (by omega)
    subst hnil
    rw [pack_line_nil]
    rfl
  | succ m ih =>
    intro line h lsb
    cases line with
    | nil =>
      rw [pack_line_nil]
      rfl
    | cons p rest =>
      rw [pack_line_cons, List.length_cons]
      have hlen : (rest.drop 7).length ≤ m := by
        simp only [List.length_drop]
        simp at h
        omega
      rw [ih (rest.drop 7) hlen lsb]
      simp only [List.length_drop, List.length_cons]
      omega

theorem pack_line_length (line : List Nat) (lsb : Bool) :
    (pack_line line lsb).length = (line.length + 7) / 8 :=
  pack_line_length_aux line.length line (Nat.le_refl _) lsb

theorem foldl_emit_flatten (f : Nat → List Nat) (c : Nat → Prop) [DecidablePred c]
    (feed : List Nat) (l : List Nat) (init : List Nat) :
    l.foldl (fun out row =>
      let out2 := out ++ f row
      if c row then out2 ++ feed else out2) init
      = init ++ (l.map (fun row => f row ++ if c row then feed else [])).flatten := by
  induction l generalizing init with
  | nil => simp
  | cons x xs ih =>
    rw [List.foldl_cons, ih]
    by_cases hc : c x
    · simp [hc, List.append_assoc]
    · simp [hc]

theorem build_line_packets_flatten (pixels : List Nat) (width speed : Nat)
    (compress lsb_first nf : Bool) (lfe : Nat) (h8 : width % 8 = 0) (h0 : width ≠ 0) :
    build_line_packets pixels width speed compress lsb_first nf lfe
      = .ok (((List.range (pixels.length / width)).map (fun row =>
          (if compress then
            (if (rle_encode_line ((pixels.drop (row * width)).take width)).length
                  ≤ width / 8 then
              make_packet 0xBF (rle_encode_line ((pixels.drop (row * width)).take width)) nf
            else
              make_packet 0xA2 (pack_line ((pixels.drop (row * width)).take width) lsb_first) nf)
          else make_packet 0xA2 (pack_line ((pixels.drop (row * width)).take width) lsb_first) nf)
          ++ (if lfe ≠ 0 ∧ (row + 1) % lfe = 0 then feed_paper_cmd speed nf else []))).flatten) := by
  unfold build_line_packets
  rw [if_neg (by omega : ¬ width % 8 ≠ 0), if_neg h0]
  have h := foldl_emit_flatten
    (fun row =>
      if compress then
        (if (rle_encode_line ((pixels.drop (row * width)).take width)).length ≤ width / 8 then
          make_packet 0xBF (rle_encode_line ((pixels.drop (row * width)).take width)) nf
        else make_packet 0xA2 (pack_line ((pixels.drop (row * width)).take width) lsb_first) nf)
      else make_packet 0xA2 (pack_line ((pixels.drop (row * width)).take width) lsb_first) nf)
    (fun row => lfe ≠ 0 ∧ (row + 1) % lfe = 0)
    (feed_paper_cmd speed nf)
    (List.range (pixels.length / width)) []
  rw [List.nil_append] at h
  exact congrArg Except.ok h

theorem encode_run_bytes (color : Nat) (hc : color ≤ 1) :
    ∀ count,
      (∀ b ∈ encode_run color count, b / 128 = color ∧ 0 < b % 128 ∧ b % 128 ≤ 127)
      ∧ ((encode_run color count).map (fun b => b % 128)).sum = count := by
  intro count
  induction count using Nat.strong_induction_on with
  | _ n ih =>
    rw [encode_run]
    by_cases h1 : 127 < n
    · rw [if_pos h1]
      have hb := lor_byte color 127 hc (by omega) (by omega)
      have hr := ih (n - 127) (by omega)
      constructor
      · intro b hbmem
        rcases List.mem_cons.mp hbmem with rfl | hmem
        · exact ⟨hb.1, by omega⟩
        · exact hr.1 b hmem
      · simp [hb.2, hr.2]
        omega
    · rw [if_neg h1]
      by_cases h2 : 0 < n
      · rw [if_pos h2]
        have hb := lor_byte color n hc h2 (by omega)
        constructor
        · intro b hbmem
          rcases List.mem_cons.mp hbmem with rfl | hmem
          · exact ⟨hb.1, by omega⟩
          · simp at hmem
        · simp [hb.2]
      · rw [if_neg h2]
        constructor
        · intro b hbmem
          simp at hbmem
        · simp
          omega

/-- C10 (implicit): RLE is lossless — for every line of 0/1 pixel values,
expanding each run byte of `rle_encode_line` into (low 7 bits) copies of the
colour in its top bit reconstructs the original line exactly. -/
theorem rle_lossless :
    ∀ (line : List Nat), (∀ p ∈ line, p = 0 ∨ p = 1) →
      rle_expand (rle_encode_line line) = line := by
  intro line h
  refine rle_roundtrip_aux line (fun p hp => ?_)
  rcases h p hp with h1 | h1 <;> omega

/-- C10 witness: the mixed line `[1, 1, 0, 1]` expands back to itself. -/
theorem rle_lossless_witness :
    (∀ p ∈ [1, 1, 0, 1], p = 0 ∨ p = 1)
    ∧ rle_expand (rle_encode_line [1, 1, 0, 1]) = [1, 1, 0, 1] :=
  ⟨by decide, rle_lossless [1, 1, 0, 1] (by decide)⟩

/-- C4: `rle_encode_line` encodes each run as bytes whose top bit is the
colour and whose low 7 bits are a positive count of at most 127 (counts over
127 split into multiple runs whose counts sum back to the run length), and
every non-empty pixel line yields a non-empty run list. -/
theorem rle_run_format :
    (∀ (color count : Nat), color ≤ 1 →
        (∀ b ∈ encode_run color count,
          b / 128 = color ∧ 0 < b % 128 ∧ b % 128 ≤ 127)
        ∧ ((encode_run color count).map (fun b => b % 128)).sum = count)
    ∧ (∀ line : List Nat, line ≠ [] → rle_encode_line line ≠ []) :=
  ⟨fun color count hc => encode_run_bytes color hc count, rle_encode_line_ne_nil⟩

/-- C4 witness: a 300-pixel black run splits into 127+127+46, and the
all-white single-pixel line still emits a run. -/
theorem rle_run_format_witness :
    ((1 : Nat) ≤ 1
      ∧ (∀ b ∈ encode_run 1 300, b / 128 = 1 ∧ 0 < b % 128 ∧ b % 128 ≤ 127)
      ∧ ((encode_run 1 300).map (fun b => b % 128)).sum = 300)
    ∧ (([0] : List Nat) ≠ [] ∧ rle_encode_line [0] ≠ []) :=
  ⟨⟨by decide, (rle_run_format.1 1 300 (by decide)).1, (rle_run_format.1 1 300 (by decide)).2⟩,
    ⟨by decide, rle_run_format.2 [0] (by decide)⟩⟩

set_option maxRecDepth 8000 in
/-- C3: with compression enabled, `build_line_packets` emits per row an RLE
packet (cmd 0xBF) when the RLE byte length is not larger than the fixed
bit-packed size of width/8 bytes, and the raw bit-packed packet (cmd 0xA2)
otherwise; in particular an all-white 384-pixel line has RLE size 4 against a
bit-packed size of 48, so the encoder chooses RLE. -/
theorem line_encoding_choice :
    (∀ (pixels : List Nat) (width speed : Nat) (lsb_first nf : Bool) (lfe : Nat),
        width % 8 = 0 → width ≠ 0 →
        build_line_packets pixels width speed true lsb_first nf lfe
          = .ok (((List.range (pixels.length / width)).map (fun row =>
              (if (rle_encode_line ((pixels.drop (row * width)).take width)).length
                    ≤ width / 8 then
                make_packet 0xBF (rle_encode_line ((pixels.drop (row * width)).take width)) nf
              else
                make_packet 0xA2
                  (pack_line ((pixels.drop (row * width)).take width) lsb_first) nf)
              ++ (if lfe ≠ 0 ∧ (row + 1) % lfe = 0 then feed_paper_cmd speed nf
                  else []))).flatten))
    ∧ (∀ (speed : Nat) (lsb_first nf : Bool),
        rle_encode_line (List.replicate 384 0) = [127, 127, 127, 3]
        ∧ (rle_encode_line (List.replicate 384 0)).length = 4
        ∧ (pack_line (List.replicate 384 0) lsb_first).length = 48
        ∧ build_line_packets (List.replicate 384 0) 384 speed true lsb_first nf 200
            = .ok (make_packet 0xBF [127, 127, 127, 3] nf)) := by
  constructor
  · intro pixels width speed lsb_first nf lfe h8 h0
    have h := build_line_packets_flatten pixels width speed true lsb_first nf lfe h8 h0
    simpa using h
  · intro speed lsb_first nf
    refine ⟨rle_allwhite_384, by rw [rle_allwhite_384]; rfl, ?_, ?_⟩
    · rw [pack_line_length, List.length_replicate]
    · have h := build_line_packets_flatten (List.replicate 384 0) 384 speed true
        lsb_first nf 200 (by norm_num) (by norm_num)
      rw [h]
      congr 1
      have hlen : (List.replicate 384 (0 : Nat)).length = 384 := by
        rw [List.length_replicate]
      rw [hlen]
      rw [show (384 : Nat) / 384 = 1 from by norm_num]
      rw [show List.range 1 = [0] from rfl]
      simp only [List.map_cons, List.map_nil]
      have hline0 : ((List.replicate 384 (0 : Nat)).drop (0 * 384)).take 384
          = List.replicate 384 0 := by
        rw [show (0 : Nat) * 384 = 0 from rfl, List.drop_zero, List.take_replicate,
          Nat.min_self]
      rw [hline0, rle_allwhite_384]
      rw [if_pos (show ([127, 127, 127, 3] : List Nat).length ≤ 384 / 8 from by decide)]
      rw [if_neg (show ¬((200 : Nat) ≠ 0 ∧ (0 + 1) % 200 = 0) from by decide)]
      simp

/-- C3 witness: the general conjunct instantiated at the empty raster of
width 8, and the all-white conjunct at the standalone driver's image speed
10, LSB-first bit order and clear dialect flag. -/
theorem line_encoding_choice_witness :
    ((8 : Nat) % 8 = 0 ∧ (8 : Nat) ≠ 0
      ∧ build_line_packets [] 8 10 true true false 200
          = .ok (((List.range (([] : List Nat).length / 8)).map (fun row =>
              (if (rle_encode_line ((([] : List Nat).drop (row * 8)).take 8)).length
                    ≤ 8 / 8 then
                make_packet 0xBF
                  (rle_encode_line ((([] : List Nat).drop (row * 8)).take 8)) false
              else
                make_packet 0xA2
                  (pack_line ((([] : List Nat).drop (row * 8)).take 8) true) false)
              ++ (if (200 : Nat) ≠ 0 ∧ (row + 1) % 200 = 0 then feed_paper_cmd 10 false
                  else []))).flatten))
    ∧ (rle_encode_line (List.replicate 384 0) = [127, 127, 127, 3]
      ∧ (rle_encode_line (List.replicate 384 0)).length = 4
      ∧ (pack_line (List.replicate 384 0) true).length = 48
      ∧ build_line_packets (List.replicate 384 0) 384 10 true true false 200
          = .ok (make_packet 0xBF [127, 127, 127, 3] false)) :=
  ⟨⟨rfl, by decide, line_encoding_choice.1 [] 8 10 true false 200 rfl (by decide)⟩,
    line_encoding_choice.2 10 true false⟩

set_option maxRecDepth 8000 in
/-- C2: for the 8-row, 384-wide all-black raster with compression on, a
positive in-range energy, the dialect flag clear and the fixed 200-row feed
cadence, `build_job` emits exactly: blackening, energy, print_mode,
feed_paper, eight RLE line packets (cmd 0xBF), feed_paper(padding),
paper_size twice, feed_paper(padding), device_state. -/
theorem build_job_order (is_text lsb_first : Bool) (speed : Nat) (energy : Int)
    (blackening : Int) (feed_padding dev_dpi : Nat)
    (h1 : 0 < energy) (h2 : energy < 65536) :
    build_job (List.replicate 3072 1) 384 is_text speed energy blackening true
        lsb_first false feed_padding dev_dpi
      = .ok (blackening_cmd blackening false
          ++ make_packet 0xAF [energy.toNat % 256, energy.toNat / 256] false
          ++ print_mode_cmd is_text false
          ++ feed_paper_cmd speed false
          ++ (List.replicate 8 (make_packet 0xBF [255, 255, 255, 131] false)).flatten
          ++ feed_paper_cmd feed_padding false
          ++ paper_cmd dev_dpi false
          ++ paper_cmd dev_dpi false
          ++ feed_paper_cmd feed_padding false
          ++ dev_state_cmd false) := by
  have hrow : ∀ row : Nat, row < 8 →
      ((if (rle_encode_line (((List.replicate 3072 1).drop (row * 384)).take 384)).length
            ≤ 384 / 8 then
          make_packet 0xBF
            (rle_encode_line (((List.replicate 3072 1).drop (row * 384)).take 384)) false
        else
          make_packet 0xA2
            (pack_line (((List.replicate 3072 1).drop (row * 384)).take 384) lsb_first)
            false)
        ++ (if (200 : Nat) ≠ 0 ∧ (row + 1) % 200 = 0 then feed_paper_cmd speed false
            else []))
      = make_packet 0xBF [255, 255, 255, 131] false := by
    intro row hr8
    have hdrop : (List.replicate 3072 (1 : Nat)).drop (row * 384)
        = List.replicate (3072 - row * 384) 1 := by
      rw [List.drop_replicate]
    have htake : (List.replicate (3072 - row * 384) (1 : Nat)).take 384
        = List.replicate 384 1 := by
      rw [List.take_replicate]
      congr 1
      omega
    have hmod : (row + 1) % 200 ≠ 0 := by omega
    rw [hdrop, htake, rle_allblack_384]
    rw [if_pos (show ([255, 255, 255, 131] : List Nat).length ≤ 384 / 8 from by decide)]
    rw [if_neg (show ¬((200 : Nat) ≠ 0 ∧ (row + 1) % 200 = 0) from
      fun hcc => hmod hcc.2)]
    rw [List.append_nil]
  have hline : build_line_packets (List.replicate 3072 1) 384 speed true lsb_first
      false 200
      = .ok ((List.replicate 8 (make_packet 0xBF [255, 255, 255, 131] false)).flatten) := by
    have h := build_line_packets_flatten (List.replicate 3072 1) 384 speed true
      lsb_first false 200 (by norm_num) (by norm_num)
    rw [List.length_replicate] at h
    rw [show (3072 : Nat) / 384 = 8 from by norm_num] at h
    rw [show List.range 8 = [0, 1, 2, 3, 4, 5, 6, 7] from rfl] at h
    simp only [List.map_cons, List.map_nil, if_true] at h
    rw [hrow 0 (by norm_num), hrow 1 (by norm_num), hrow 2 (by norm_num),
      hrow 3 (by norm_num), hrow 4 (by norm_num), hrow 5 (by norm_num),
      hrow 6 (by norm_num), hrow 7 (by norm_num)] at h
    exact h
  have he : energy_cmd energy false
      = .ok (make_packet 0xAF [energy.toNat % 256, energy.toNat / 256] false) := by
    unfold energy_cmd
    rw [if_neg (by omega : ¬ energy ≤ 0), if_pos h2]
  unfold build_job build_print_payload
  simp only [he, except_bind_ok, hline]
  congr 1

/-- C2 witness: the packet sequence at the standalone driver's defaults
(image mode, speed 10, energy 5000, blackening 3, LSB-first, 200 dpi). -/
theorem build_job_order_witness :
    ((0 : Int) < 5000 ∧ (5000 : Int) < 65536)
    ∧ build_job (List.replicate 3072 1) 384 false 10 5000 3 true true false 12 200
      = .ok (blackening_cmd 3 false
          ++ make_packet 0xAF [(5000 : Int).toNat % 256, (5000 : Int).toNat / 256] false
          ++ print_mode_cmd false false
          ++ feed_paper_cmd 10 false
          ++ (List.replicate 8 (make_packet 0xBF [255, 255, 255, 131] false)).flatten
          ++ feed_paper_cmd 12 false
          ++ paper_cmd 200 false
          ++ paper_cmd 200 false
          ++ feed_paper_cmd 12 false
          ++ dev_state_cmd false) :=
  ⟨⟨by norm_num, by norm_num⟩,
    build_job_order false true 10 5000 3 12 200 (by norm_num) (by norm_num)⟩


end EMX
